import Mathlib

/-
  Verification of the fractal evaluation core of jlr-mandelbrot
  (src/src/main.rs).

  The embedding below translates the four pure components of the
  program: the color mapping (`color`), the escape-time kernel
  (`calculate_escape_value`), the viewport construction and zoom
  algebra (`WindowAndViewportInfo.new` and the zoom arms of `main`),
  and the spiral pixel enumerator (`RowAndColumnIterator::next`).

  Machine floats (the program's `type Float = f64`) are modelled by
  exact rationals: every operation the kernel performs is a ring
  operation, an absolute value or a comparison, so the control
  structure carries over verbatim.  The infinite `loop` of
  `calculate_escape_value` is modelled with an explicit fuel
  parameter counting outer rounds; `none` at the outer level means
  the fuel ran out before the loop returned.  Panics (`panic!`,
  `try_into().unwrap()`) are modelled as `none` results.
-/

namespace JLR

/- ===== ColorMapper: `color`, src/src/main.rs lines 64-95 ===== -/

def NUM_COLORS_PER_LEG : ℕ := 30

def MANDELBROT_SET_COLOR : ℕ × ℕ × ℕ := (0, 0, 102)

/-- Embedding of `color`. The `usize → u8` conversions
(`try_into().unwrap()`) and the impossible fall-through arm of the
`match leg` are modelled as `none` (a panic). -/
def color : Option ℕ → Option (ℕ × ℕ × ℕ)
  | none => some MANDELBROT_SET_COLOR
  | some i =>
    let num_colors := NUM_COLORS_PER_LEG * 3
    let i := i % num_colors
    let remainder := i % NUM_COLORS_PER_LEG
    let value1 := (NUM_COLORS_PER_LEG - remainder) * 255 / NUM_COLORS_PER_LEG
    let value2 := remainder * 255 / NUM_COLORS_PER_LEG
    if value1 ≤ 255 then
      if value2 ≤ 255 then
        let leg := i / NUM_COLORS_PER_LEG
        if leg = 0 then some (value1, value2, 0)
        else if leg = 1 then some (0, value1, value2)
        else if leg = 2 then some (value2, 0, value1)
        else none
      else none
    else none

/-- The per-iteration color of spec section 4.4, written from the
spec's words: `K = 30`, `v = i mod 90`, `leg = v / K`,
`remainder = v mod K`, `value1 = (K-remainder)*255/K`,
`value2 = remainder*255/K`, legs 0,1,2 giving
`(value1,value2,0)`, `(0,value1,value2)`, `(value2,0,value1)`. -/
def specEscapedColor (i : ℕ) : ℕ × ℕ × ℕ :=
  let K := 30
  let v := i % 90
  let leg := v / K
  let remainder := v % K
  let value1 := (K - remainder) * 255 / K
  let value2 := remainder * 255 / K
  if leg = 0 then (value1, value2, 0)
  else if leg = 1 then (0, value1, value2)
  else (value2, 0, value1)

/- ===== EscapeEvaluator: `calculate_escape_value`, lines 198-287 ===== -/

structure EscState where
  iterations : ℕ
  x_slow : ℚ
  y_slow : ℚ
  x_fast : ℚ
  y_fast : ℚ
deriving DecidableEq

inductive EscOutcome where
  | escaped (iterations : ℕ)
  | bounded (iterations : ℕ)
deriving DecidableEq

/-- The fast/slow cycle comparison of lines 220-228 (and its two
repetitions): bit-exact tuple equality when `threshold == 0.0`,
otherwise componentwise `|fast - slow| <= threshold`. -/
def cycleMatch (threshold x_fast y_fast x_slow y_slow : ℚ) : Bool :=
  if threshold = 0 then decide (x_fast = x_slow ∧ y_fast = y_slow)
  else decide (|x_fast - x_slow| ≤ threshold ∧ |y_fast - y_slow| ≤ threshold)

/-- The `if let Some(bailout_to_use) = bailout { if iterations ==
bailout_to_use { return None } }` test of lines 230-234. -/
def bailoutHit (bailout : Option ℕ) (iterations : ℕ) : Bool :=
  match bailout with
  | some bailout_to_use => decide (iterations = bailout_to_use)
  | none => false

/-- Early return (`Sum.inl`) short-circuits the rest of the round. -/
def andThen (r : EscOutcome ⊕ EscState) (f : EscState → EscOutcome ⊕ EscState) :
    EscOutcome ⊕ EscState :=
  match r with
  | .inl outcome => .inl outcome
  | .inr s => f s

/-- One advance of the fast point, i.e. lines 212-234 of the source
(repeated verbatim at lines 236-258): the escape test on the
pre-update value, the update, the cycle comparison against the
(unchanged) slow point, the `iterations` increment and the bailout
check.  `Sum.inl` is a `return`. -/
def fastStep (c_x c_y threshold : ℚ) (bailout : Option ℕ) (s : EscState) : EscOutcome ⊕ EscState :=
  let x_squared := s.x_fast * s.x_fast
  let y_squared := s.y_fast * s.y_fast
  if 4 < x_squared + y_squared then .inl (.escaped s.iterations)
  else
    let x_fast := x_squared - y_squared + c_x
    let y_fast := 2 * s.x_fast * s.y_fast + c_y
    if cycleMatch threshold x_fast y_fast s.x_slow s.y_slow then .inl (.bounded s.iterations)
    else
      let iterations := s.iterations + 1
      if bailoutHit bailout iterations then .inl (.bounded iterations)
      else .inr ⟨iterations, s.x_slow, s.y_slow, x_fast, y_fast⟩

/-- One advance of the slow point, lines 260-273 of the source: no
escape test, no increment, no bailout check; only the update and the
cycle comparison against the (already twice-advanced) fast point. -/
def slowStep (c_x c_y threshold : ℚ) (s : EscState) : EscOutcome ⊕ EscState :=
  let x_squared := s.x_slow * s.x_slow
  let y_squared := s.y_slow * s.y_slow
  let x_slow := x_squared - y_squared + c_x
  let y_slow := 2 * s.x_slow * s.y_slow + c_y
  if cycleMatch threshold s.x_fast s.y_fast x_slow y_slow then .inl (.bounded s.iterations)
  else .inr ⟨s.iterations, x_slow, y_slow, s.x_fast, s.y_fast⟩

/-- One pass of the `loop` body of `calculate_escape_value`
(lines 211-286): two fast advances followed by one slow advance.
(The dead time-out code after `continue;` is unreachable in the
source and is not modelled.) -/
def loopBody (c_x c_y threshold : ℚ) (bailout : Option ℕ) (s : EscState) : EscOutcome ⊕ EscState :=
  andThen (fastStep c_x c_y threshold bailout s) fun s1 =>
    andThen (fastStep c_x c_y threshold bailout s1) fun s2 =>
      slowStep c_x c_y threshold s2

/-- The internal value of the `iterations` counter at the moment a
round returns. -/
def EscOutcome.counter : EscOutcome → ℕ
  | .escaped i => i
  | .bounded m => m

/-- Fuel-indexed iteration of `loopBody`; `none` means the fuel ran
out before the source's `loop` returned. -/
def calcEscapeLoop (c_x c_y threshold : ℚ) (bailout : Option ℕ) : ℕ → EscState → Option EscOutcome
  | 0, _ => none
  | fuel + 1, s =>
    match loopBody c_x c_y threshold bailout s with
    | .inl outcome => some outcome
    | .inr s' => calcEscapeLoop c_x c_y threshold bailout fuel s'

/-- `Some(iterations)` / `None` as returned by the source function. -/
def toEscapeValue : EscOutcome → Option ℕ
  | .escaped i => some i
  | .bounded _ => none

/-- Embedding of `calculate_escape_value` (lines 198-287).
`c.unwrap_or((x, y))` and `threshold.unwrap_or(0.0)` become
`Option.getD`; both the slow and the fast point start at the input
point and `iterations` starts at 0 (lines 205-207). -/
def calculate_escape_value (fuel : ℕ) (x y : ℚ) (c : Option (ℚ × ℚ))
    (threshold : Option ℚ) (bailout : Option ℕ) : Option (Option ℕ) :=
  let c_pair := c.getD (x, y)
  let threshold_value := threshold.getD 0
  (calcEscapeLoop c_pair.1 c_pair.2 threshold_value bailout fuel ⟨0, x, y, x, y⟩).map toEscapeValue

/- ===== Reference rounds for the refinement claim (spec 4.1) ===== -/

structure SpecState where
  iterations : ℕ
  slow : ℚ × ℚ
  fast : ℚ × ℚ
deriving DecidableEq

/-- The update `z' = z^2 + c` on a pair, spec section 4.1. -/
def specAdvance (c_x c_y : ℚ) (p : ℚ × ℚ) : ℚ × ℚ :=
  (p.1 * p.1 - p.2 * p.2 + c_x, 2 * p.1 * p.2 + c_y)

/-- The escape test `x^2 + y^2 > 4.0` of spec section 4.1. -/
def specEscapeTest (p : ℚ × ℚ) : Bool :=
  decide (4 < p.1 * p.1 + p.2 * p.2)

/-- Spec section 4.1 step 4: bit-exact equality when the threshold
is zero, otherwise componentwise closeness within the threshold. -/
def specCompare (threshold : ℚ) (fast slow : ℚ × ℚ) : Bool :=
  if threshold = 0 then decide (fast = slow)
  else decide (|fast.1 - slow.1| ≤ threshold ∧ |fast.2 - slow.2| ≤ threshold)

/-- One round of the reference algorithm exactly as spec section 4.1
reads: two fast advances, each with the pre-update escape test and
each followed by the increment and bailout check of step 5; then one
slow advance with no test; then a SINGLE fast/slow comparison,
returning Bounded on match. -/
def specRound (c_x c_y threshold : ℚ) (bailout : Option ℕ) (s : SpecState) : EscOutcome ⊕ SpecState :=
  if specEscapeTest s.fast then .inl (.escaped s.iterations)
  else
    let fast1 := specAdvance c_x c_y s.fast
    let it1 := s.iterations + 1
    if bailoutHit bailout it1 then .inl (.bounded it1)
    else if specEscapeTest fast1 then .inl (.escaped it1)
    else
      let fast2 := specAdvance c_x c_y fast1
      let it2 := it1 + 1
      if bailoutHit bailout it2 then .inl (.bounded it2)
      else
        let slow1 := specAdvance c_x c_y s.slow
        if specCompare threshold fast2 slow1 then .inl (.bounded it2)
        else .inr ⟨it2, slow1, fast2⟩

def specLoop (c_x c_y threshold : ℚ) (bailout : Option ℕ) : ℕ → SpecState → Option EscOutcome
  | 0, _ => none
  | fuel + 1, s =>
    match specRound c_x c_y threshold bailout s with
    | .inl outcome => some outcome
    | .inr s' => specLoop c_x c_y threshold bailout fuel s'

/-- The evaluator built from `specRound`: the reference algorithm of
spec section 4.1 with one cycle comparison per round. -/
def specEscape (fuel : ℕ) (x y : ℚ) (c : Option (ℚ × ℚ))
    (threshold : Option ℚ) (bailout : Option ℕ) : Option (Option ℕ) :=
  let c_pair := c.getD (x, y)
  let threshold_value := threshold.getD 0
  (specLoop c_pair.1 c_pair.2 threshold_value bailout fuel ⟨0, (x, y), (x, y)⟩).map toEscapeValue

/-- Early return for the reference rounds. -/
def andThenSpec (r : EscOutcome ⊕ SpecState) (f : SpecState → EscOutcome ⊕ SpecState) :
    EscOutcome ⊕ SpecState :=
  match r with
  | .inl outcome => .inl outcome
  | .inr s => f s

/-- A fast advance of the amended reference: the pre-update escape
test, the update, a cycle comparison of the just-advanced fast point
against the not-yet-advanced slow point, then the increment and the
bailout check. -/
def refFastStep (c_x c_y threshold : ℚ) (bailout : Option ℕ) (s : SpecState) : EscOutcome ⊕ SpecState :=
  if specEscapeTest s.fast then .inl (.escaped s.iterations)
  else
    let fast1 := specAdvance c_x c_y s.fast
    if specCompare threshold fast1 s.slow then .inl (.bounded s.iterations)
    else
      let it1 := s.iterations + 1
      if bailoutHit bailout it1 then .inl (.bounded it1)
      else .inr ⟨it1, s.slow, fast1⟩

/-- The slow advance of the amended reference: no escape test and no
increment; the update, then a cycle comparison against the fast
point. -/
def refSlowStep (c_x c_y threshold : ℚ) (s : SpecState) : EscOutcome ⊕ SpecState :=
  let slow1 := specAdvance c_x c_y s.slow
  if specCompare threshold s.fast slow1 then .inl (.bounded s.iterations)
  else .inr ⟨s.iterations, slow1, s.fast⟩

/-- The amended reference round: as `specRound`, but a cycle
comparison follows every advance — after each of the two fast
advances the just-advanced fast point is compared against the
not-yet-advanced slow point (before the increment and bailout
check), and a third comparison follows the slow advance. -/
def refRound (c_x c_y threshold : ℚ) (bailout : Option ℕ) (s : SpecState) : EscOutcome ⊕ SpecState :=
  andThenSpec (refFastStep c_x c_y threshold bailout s) fun s1 =>
    andThenSpec (refFastStep c_x c_y threshold bailout s1) fun s2 =>
      refSlowStep c_x c_y threshold s2

def refLoop (c_x c_y threshold : ℚ) (bailout : Option ℕ) : ℕ → SpecState → Option EscOutcome
  | 0, _ => none
  | fuel + 1, s =>
    match refRound c_x c_y threshold bailout s with
    | .inl outcome => some outcome
    | .inr s' => refLoop c_x c_y threshold bailout fuel s'

/-- The evaluator built from `refRound`. -/
def refEscape (fuel : ℕ) (x y : ℚ) (c : Option (ℚ × ℚ))
    (threshold : Option ℚ) (bailout : Option ℕ) : Option (Option ℕ) :=
  let c_pair := c.getD (x, y)
  let threshold_value := threshold.getD 0
  (refLoop c_pair.1 c_pair.2 threshold_value bailout fuel ⟨0, (x, y), (x, y)⟩).map toEscapeValue

/-- The state correspondence between the source embedding and the
reference state record. -/
def toSpecState (s : EscState) : SpecState :=
  ⟨s.iterations, (s.x_slow, s.y_slow), (s.x_fast, s.y_fast)⟩

/- ===== SpiralEnumerator: `RowAndColumnIterator::next`, lines 131-173 ===== -/

/-- The step function of the spiral enumerator (the `else` arm of
`next`, lines 144-168), on the relative offset.  `none` is the final
`panic!` arm. -/
def spiralStep (row column : ℤ) : Option (ℤ × ℤ) :=
  if row = 0 ∧ column = 0 then some (0, 1)
  else if row = column then
    if 0 < column then some (row, column + 1) else some (row + 1, column)
  else if row = -column then
    if 0 < column then some (row, column - 1) else some (row, column + 1)
  else if 0 < column ∧ |row| < column then some (row - 1, column)
  else if column < 0 ∧ |row| < -column then some (row + 1, column)
  else if 0 < row ∧ |column| < row then some (row, column + 1)
  else if row < 0 ∧ |column| < -row then some (row, column - 1)
  else none

/-- The n-th offset produced by the enumerator seeded at `(0, 0)`:
the first call of `next` returns `(0, 0)` (the `!self.started` arm)
and every later call applies the step function once.  `none` records
that some step hit the `panic!` arm. -/
def spiralIter : ℕ → Option (ℤ × ℤ)
  | 0 => some (0, 0)
  | n + 1 => (spiralIter n).bind fun p => spiralStep p.1 p.2

/-- Closed form for the j-th point (0-based) of the k-th square ring
of the spiral, k ≥ 1, 0 ≤ j < 8k: up the right edge, left along the
top edge, down the left edge, right along the bottom edge. -/
def ringPoint (k j : ℕ) : ℤ × ℤ :=
  if j < 2 * k then ((k : ℤ) - 1 - (j : ℤ), (k : ℤ))
  else if j < 4 * k then (-(k : ℤ), 3 * (k : ℤ) - 1 - (j : ℤ))
  else if j < 6 * k then ((j : ℤ) - 5 * (k : ℤ) + 1, -(k : ℤ))
  else ((k : ℤ), (j : ℤ) - 7 * (k : ℤ) + 1)

/-- Closed form for the n-th offset of the spiral: ring
`k = (sqrt n + 1) / 2` at position `n - (2k-1)^2` within the ring. -/
def spiralPos (n : ℕ) : ℤ × ℤ :=
  if n = 0 then (0, 0)
  else
    let k := (Nat.sqrt n + 1) / 2
    ringPoint k (n - (2 * k - 1) ^ 2)

/- ===== ViewportMapper: `WindowAndViewportInfo`, lines 301-346,
   and the zoom arms of `main` (lines 799-816) together with the
   `ZoomOut` reflection of `get_user_input` (line 543) ===== -/

structure WindowAndViewportInfo where
  width : ℕ
  height : ℕ
  center_x : ℚ
  center_y : ℚ
  span : ℚ
  distance_from_center_to_edge : ℚ
  min_x : ℚ
  max_x : ℚ
  min_y : ℚ
  max_y : ℚ
  delta_x : ℚ
  delta_y : ℚ
  zoom_level : ℤ

/-- Embedding of `WindowAndViewportInfo::new` (lines 317-345). -/
def WindowAndViewportInfo.new (width height : ℕ)
    (center_x center_y distance_from_center_to_edge : ℚ)
    (zoom_level : ℤ) : WindowAndViewportInfo :=
  let span := distance_from_center_to_edge * 2
  let min_x := center_x - distance_from_center_to_edge
  let max_x := center_x + distance_from_center_to_edge
  let min_y := center_y - distance_from_center_to_edge
  let max_y := center_y + distance_from_center_to_edge
  let delta_x := (max_x - min_x) / (width : ℚ)
  let delta_y := (max_y - min_y) / (height : ℚ)
  ⟨width, height, center_x, center_y, span, distance_from_center_to_edge,
   min_x, max_x, min_y, max_y, delta_x, delta_y, zoom_level⟩

/-- The `UserInput::ZoomIn(x, y)` arm of `main` (lines 799-807):
recentre on the clicked point, halve the half-span, raise the zoom
level. -/
def zoomInInfo (info : WindowAndViewportInfo) (x y : ℚ) : WindowAndViewportInfo :=
  WindowAndViewportInfo.new info.width info.height x y
    (info.distance_from_center_to_edge / 2) (info.zoom_level + 1)

/-- The centre passed along with `UserInput::ZoomOut` by
`get_user_input` (line 543): the reflection of the clicked point
through the current centre. -/
def zoomOutCenter (info : WindowAndViewportInfo) (x y : ℚ) : ℚ × ℚ :=
  (2 * info.center_x - x, 2 * info.center_y - y)

/-- The `UserInput::ZoomOut(x, y)` arm of `main` (lines 808-816):
recentre on the reflected point, double the half-span, lower the
zoom level. -/
def zoomOutInfo (info : WindowAndViewportInfo) (x y : ℚ) : WindowAndViewportInfo :=
  WindowAndViewportInfo.new info.width info.height x y
    (info.distance_from_center_to_edge * 2) (info.zoom_level - 1)

/- =====================  Theorems  ===================== -/

/- ---- ColorMapper ---- -/

theorem color_some_eq (i : ℕ) : color (some i) = some (specEscapedColor i) := by
  have hrem : i % 90 % 30 < 30 := Nat.mod_lt _ (by norm_num)
  have h1 : (30 - i % 90 % 30) * 255 / 30 ≤ 255 := by omega
  have h2 : i % 90 % 30 * 255 / 30 ≤ 255 := by omega
  have hleg : i % 90 / 30 = 0 ∨ i % 90 / 30 = 1 ∨ i % 90 / 30 = 2 := by omega
  simp only [color, specEscapedColor, NUM_COLORS_PER_LEG]
  norm_num
  rcases hleg with h | h | h <;> simp [h, h1, h2] <;> omega

theorem specEscapedColor_le (i : ℕ) :
    (specEscapedColor i).1 ≤ 255 ∧ (specEscapedColor i).2.1 ≤ 255 ∧
      (specEscapedColor i).2.2 ≤ 255 := by
  have h1 : (30 - i % 90 % 30) * 255 / 30 ≤ 255 := by omega
  have h2 : i % 90 % 30 * 255 / 30 ≤ 255 := by omega
  simp only [specEscapedColor]
  split_ifs <;> simp_all

/-- Claim C8: the palette is periodic with period 90,
`mapColor(Escaped(0)) = (255, 0, 0)`, `mapColor(Bounded) = (0, 0, 102)`,
and every Escaped color is computed by the leg/remainder formula of
spec section 4.4 with K = 30 and truncating integer division. -/
theorem color_palette (i : ℕ) :
    color (some (i + 90)) = color (some i) ∧
    color (some 0) = some (255, 0, 0) ∧
    color none = some (0, 0, 102) ∧
    color (some i) = some (specEscapedColor i) := by
  refine ⟨?_, by decide, rfl, color_some_eq i⟩
  rw [color_some_eq, color_some_eq]
  simp [specEscapedColor, Nat.add_mod_right]

/-- Claim C10: the color function is total — the panic arm of the
`match leg` and the `usize → u8` conversions never fail, and every
produced component fits in a byte. -/
theorem color_never_fails (i : Option ℕ) :
    ∃ r g b, color i = some (r, g, b) ∧ r ≤ 255 ∧ g ≤ 255 ∧ b ≤ 255 := by
  cases i with
  | none => exact ⟨0, 0, 102, rfl, by norm_num, by norm_num, by norm_num⟩
  | some i =>
    obtain ⟨h1, h2, h3⟩ := specEscapedColor_le i
    exact ⟨(specEscapedColor i).1, (specEscapedColor i).2.1, (specEscapedColor i).2.2,
      by rw [color_some_eq], h1, h2, h3⟩

/- ---- ViewportMapper zoom algebra ---- -/

/-- Claim C9: zooming in on any point and then zooming out on the new
centre (a dead-centre click, whose reflection through the new centre
is the new centre itself) restores the original half-span and the
original zoom level exactly; the centre is not asserted to be
restored. -/
theorem zoom_in_then_out_restores_span (info : WindowAndViewportInfo) (px py : ℚ) :
    (zoomOutInfo (zoomInInfo info px py)
        (zoomOutCenter (zoomInInfo info px py) (zoomInInfo info px py).center_x
          (zoomInInfo info px py).center_y).1
        (zoomOutCenter (zoomInInfo info px py) (zoomInInfo info px py).center_x
          (zoomInInfo info px py).center_y).2).distance_from_center_to_edge =
      info.distance_from_center_to_edge ∧
    (zoomOutInfo (zoomInInfo info px py)
        (zoomOutCenter (zoomInInfo info px py) (zoomInInfo info px py).center_x
          (zoomInInfo info px py).center_y).1
        (zoomOutCenter (zoomInInfo info px py) (zoomInInfo info px py).center_x
          (zoomInInfo info px py).center_y).2).zoom_level = info.zoom_level := by
  constructor <;>
    simp [zoomInInfo, zoomOutInfo, zoomOutCenter, WindowAndViewportInfo.new]

/- ---- EscapeEvaluator: basic facts ---- -/

/-- Claim C6: any input with `x^2 + y^2 > 4` yields `Escaped(0)` for
every mode constant, threshold and bailout: the very first escape
test uses the untouched input point. -/
theorem escape_zero_outside_radius (fuel : ℕ) (x y : ℚ) (c : Option (ℚ × ℚ))
    (threshold : Option ℚ) (bailout : Option ℕ) (hfuel : 0 < fuel)
    (hxy : 4 < x * x + y * y) :
    calculate_escape_value fuel x y c threshold bailout = some (some 0) := by
  obtain ⟨f, rfl⟩ : ∃ f, fuel = f + 1 := ⟨fuel - 1, by omega⟩
  simp [calculate_escape_value, calcEscapeLoop, loopBody, fastStep, andThen, hxy, toEscapeValue]

/-- Witness for claim C6 at the concrete input (3, 3). -/
theorem escape_zero_outside_radius_witness :
    calculate_escape_value 1 3 3 none none none = some (some 0) :=
  escape_zero_outside_radius 1 3 3 none none none (by norm_num) (by norm_num)

/- ---- EscapeEvaluator: bailout (claim C2) ---- -/

theorem fastStep_escaped {c_x c_y t : ℚ} {b : Option ℕ} {s : EscState} {i : ℕ}
    (h : fastStep c_x c_y t b s = .inl (.escaped i)) : i = s.iterations := by
  simp only [fastStep] at h
  split_ifs at h <;> simp_all

theorem andThen_inl (o : EscOutcome) (f : EscState → EscOutcome ⊕ EscState) :
    andThen (.inl o) f = .inl o := rfl

theorem andThen_inr (s : EscState) (f : EscState → EscOutcome ⊕ EscState) :
    andThen (.inr s) f = f s := rfl

theorem fastStep_inl_counter {c_x c_y t : ℚ} {b : Option ℕ} {s : EscState} {o : EscOutcome}
    (h : fastStep c_x c_y t b s = .inl o) :
    s.iterations ≤ o.counter ∧ o.counter ≤ s.iterations + 1 := by
  simp only [fastStep] at h
  split_ifs at h <;>
    first
      | (simp only [Sum.inl.injEq] at h; subst h; simp only [EscOutcome.counter]; omega)
      | simp at h

theorem fastStep_inr {c_x c_y t : ℚ} {b : Option ℕ} {s s' : EscState}
    (h : fastStep c_x c_y t b s = .inr s') :
    s'.iterations = s.iterations + 1 ∧ bailoutHit b (s.iterations + 1) = false := by
  simp only [fastStep] at h
  split_ifs at h with h1 h2 h3 <;>
    first
      | (simp only [Sum.inr.injEq] at h; subst h; exact ⟨rfl, by simpa using h3⟩)
      | simp at h

theorem slowStep_inl {c_x c_y t : ℚ} {s : EscState} {o : EscOutcome}
    (h : slowStep c_x c_y t s = .inl o) : o = .bounded s.iterations := by
  simp only [slowStep] at h
  split_ifs at h <;>
    first
      | (simp only [Sum.inl.injEq] at h; exact h.symm)
      | simp at h

theorem slowStep_inr {c_x c_y t : ℚ} {s s' : EscState}
    (h : slowStep c_x c_y t s = .inr s') : s'.iterations = s.iterations := by
  simp only [slowStep] at h
  split_ifs at h <;>
    first
      | (simp only [Sum.inr.injEq] at h; subst h; rfl)
      | simp at h

theorem loopBody_inr_iterations {c_x c_y t : ℚ} {b : Option ℕ} {s s' : EscState}
    (h : loopBody c_x c_y t b s = .inr s') :
    s'.iterations = s.iterations + 2 ∧
    bailoutHit b (s.iterations + 1) = false ∧ bailoutHit b (s.iterations + 2) = false := by
  simp only [loopBody] at h
  rcases h1 : fastStep c_x c_y t b s with o | s1 <;> rw [h1] at h <;> simp only [andThen_inl, andThen_inr] at h
  · exact absurd h (by simp)
  · rcases h2 : fastStep c_x c_y t b s1 with o | s2 <;> rw [h2] at h <;>
      simp only [andThen_inl, andThen_inr] at h
    · exact absurd h (by simp)
    · rcases h3 : slowStep c_x c_y t s2 with o | s3 <;> rw [h3] at h
      · exact absurd h (by simp)
      · obtain ⟨e1, hb1⟩ := fastStep_inr h1
        obtain ⟨e2, hb2⟩ := fastStep_inr h2
        have e3 := slowStep_inr h3
        simp only [Sum.inr.injEq] at h
        subst h
        rw [e1] at hb2
        exact ⟨by omega, hb1, hb2⟩

theorem loopBody_escaped_iterations {c_x c_y t : ℚ} {b : Option ℕ} {s : EscState} {i : ℕ}
    (h : loopBody c_x c_y t b s = .inl (.escaped i)) :
    i = s.iterations ∨ (i = s.iterations + 1 ∧ bailoutHit b (s.iterations + 1) = false) := by
  simp only [loopBody] at h
  rcases h1 : fastStep c_x c_y t b s with o | s1 <;> rw [h1] at h <;> simp only [andThen_inl, andThen_inr] at h
  · simp only [Sum.inl.injEq] at h
    subst h
    exact Or.inl (fastStep_escaped h1)
  · rcases h2 : fastStep c_x c_y t b s1 with o | s2 <;> rw [h2] at h <;>
      simp only [andThen_inl, andThen_inr] at h
    · simp only [Sum.inl.injEq] at h
      subst h
      obtain ⟨e1, hb1⟩ := fastStep_inr h1
      have e2 := fastStep_escaped h2
      exact Or.inr ⟨by omega, hb1⟩
    · rcases h3 : slowStep c_x c_y t s2 with o | s3 <;> rw [h3] at h
      · simp only [Sum.inl.injEq] at h
        subst h
        have := slowStep_inl h3
        simp at this
      · exact absurd h (by simp)

theorem loopBody_inl_counter {c_x c_y t : ℚ} {b : Option ℕ} {s : EscState} {o : EscOutcome}
    (h : loopBody c_x c_y t b s = .inl o) :
    s.iterations ≤ o.counter ∧ o.counter ≤ s.iterations + 2 := by
  simp only [loopBody] at h
  rcases h1 : fastStep c_x c_y t b s with o' | s1 <;> rw [h1] at h <;> simp only [andThen_inl, andThen_inr] at h
  · simp only [Sum.inl.injEq] at h
    subst h
    have := fastStep_inl_counter h1
    omega
  · obtain ⟨e1, _⟩ := fastStep_inr h1
    rcases h2 : fastStep c_x c_y t b s1 with o' | s2 <;> rw [h2] at h <;>
      simp only [andThen_inl, andThen_inr] at h
    · simp only [Sum.inl.injEq] at h
      subst h
      have := fastStep_inl_counter h2
      omega
    · obtain ⟨e2, _⟩ := fastStep_inr h2
      rcases h3 : slowStep c_x c_y t s2 with o' | s3 <;> rw [h3] at h
      · simp only [Sum.inl.injEq] at h
        subst h
        have e3 := slowStep_inl h3
        subst e3
        simp only [EscOutcome.counter]
        omega
      · exact absurd h (by simp)

theorem calcEscapeLoop_bailout_lt (c_x c_y t : ℚ) (bb : ℕ) :
    ∀ (fuel : ℕ) (s : EscState), s.iterations < bb →
      ∀ i, calcEscapeLoop c_x c_y t (some bb) fuel s = some (.escaped i) → i < bb := by
  intro fuel
  induction fuel with
  | zero => intro s _ i h; simp [calcEscapeLoop] at h
  | succ f ih =>
    intro s hs i h
    simp only [calcEscapeLoop] at h
    rcases hlb : loopBody c_x c_y t (some bb) s with o | s'
    · rw [hlb] at h
      simp only [Option.some.injEq] at h
      subst h
      rcases loopBody_escaped_iterations hlb with h' | ⟨h', hbail⟩
      · omega
      · simp only [bailoutHit, decide_eq_false_iff_not] at hbail
        omega
    · rw [hlb] at h
      obtain ⟨h2, hb1, hb2⟩ := loopBody_inr_iterations hlb
      simp only [bailoutHit, decide_eq_false_iff_not] at hb1 hb2
      exact ih s' (by omega) i h

/-- Claim C2 counterexample: with bailout 0 configured, the input
(3, 3) returns `Escaped(0)` even though 0 ≥ 0 — the `iterations ==
bailout` test never fires for bailout 0, so the cap does not make
the point Bounded. -/
theorem bailout_zero_still_escapes :
    calculate_escape_value 1 3 3 none none (some 0) = some (some 0) ∧ 0 ≤ 0 :=
  ⟨by norm_num [calculate_escape_value, calcEscapeLoop, loopBody, fastStep, slowStep,
      andThen, cycleMatch, bailoutHit, toEscapeValue], le_refl 0⟩

/-- Claim C2 (amended): for every configured bailout b ≥ 1, the
function never returns `Escaped(i)` with i ≥ b — reaching the
iteration cap returns Bounded immediately.  (For b = 0 the cap never
fires, because the code tests `iterations == bailout` and the counter
only takes values ≥ 1 when tested.) -/
theorem bailout_caps_escape (fuel : ℕ) (x y : ℚ) (c : Option (ℚ × ℚ))
    (threshold : Option ℚ) (b : ℕ) (hb : 1 ≤ b) (i : ℕ)
    (h : calculate_escape_value fuel x y c threshold (some b) = some (some i)) :
    i < b := by
  simp only [calculate_escape_value, Option.map_eq_some'] at h
  obtain ⟨o, ho, hto⟩ := h
  cases o with
  | escaped j =>
    simp only [toEscapeValue, Option.some.injEq] at hto
    subst hto
    exact calcEscapeLoop_bailout_lt _ _ _ b fuel _ (show (0:ℕ) < b by omega) _ ho
  | bounded m => simp [toEscapeValue] at hto

/-- Witness for claim C2 (amended): bailout 1 at the escaping input
(3, 3), which returns `Escaped(0)` with 0 < 1. -/
theorem bailout_caps_escape_witness : (0 : ℕ) < 1 :=
  bailout_caps_escape 1 3 3 none none 1 (le_refl 1) 0
    (by norm_num [calculate_escape_value, calcEscapeLoop, loopBody, fastStep, slowStep,
      andThen, cycleMatch, bailoutHit, toEscapeValue])

/- ---- EscapeEvaluator: round structure (claim C1) ---- -/

theorem andThenSpec_inl (o : EscOutcome) (f : SpecState → EscOutcome ⊕ SpecState) :
    andThenSpec (.inl o) f = .inl o := rfl

theorem andThenSpec_inr (s : SpecState) (f : SpecState → EscOutcome ⊕ SpecState) :
    andThenSpec (.inr s) f = f s := rfl

theorem specCompare_eq_cycleMatch (t a b c d : ℚ) :
    specCompare t (a, b) (c, d) = cycleMatch t a b c d := by
  by_cases h : t = 0
  · subst h
    simp only [specCompare, cycleMatch, if_pos rfl]
    exact decide_eq_decide.mpr (by simp [Prod.ext_iff])
  · simp only [specCompare, cycleMatch, if_neg h]

theorem refFastStep_eq (c_x c_y t : ℚ) (b : Option ℕ) (s : EscState) :
    refFastStep c_x c_y t b (toSpecState s) = Sum.map id toSpecState (fastStep c_x c_y t b s) := by
  obtain ⟨it, xs, ys, xf, yf⟩ := s
  simp only [refFastStep, fastStep, toSpecState, specAdvance, specEscapeTest,
    specCompare_eq_cycleMatch, decide_eq_true_eq]
  split_ifs <;> rfl

theorem refSlowStep_eq (c_x c_y t : ℚ) (s : EscState) :
    refSlowStep c_x c_y t (toSpecState s) = Sum.map id toSpecState (slowStep c_x c_y t s) := by
  obtain ⟨it, xs, ys, xf, yf⟩ := s
  simp only [refSlowStep, slowStep, toSpecState, specAdvance,
    specCompare_eq_cycleMatch]
  split_ifs <;> rfl

theorem refRound_eq_loopBody (c_x c_y t : ℚ) (b : Option ℕ) (s : EscState) :
    refRound c_x c_y t b (toSpecState s) = Sum.map id toSpecState (loopBody c_x c_y t b s) := by
  simp only [refRound, loopBody, refFastStep_eq]
  rcases fastStep c_x c_y t b s with o | s1
  · rfl
  · simp only [Sum.map_inr, id_eq, andThen_inr, andThenSpec_inr, refFastStep_eq]
    rcases fastStep c_x c_y t b s1 with o | s2
    · rfl
    · simp only [Sum.map_inr, id_eq, andThen_inr, andThenSpec_inr, refSlowStep_eq]

theorem refLoop_eq_calcEscapeLoop (c_x c_y t : ℚ) (b : Option ℕ) :
    ∀ (fuel : ℕ) (s : EscState),
      refLoop c_x c_y t b fuel (toSpecState s) = calcEscapeLoop c_x c_y t b fuel s := by
  intro fuel
  induction fuel with
  | zero => intro s; rfl
  | succ f ih =>
    intro s
    simp only [refLoop, calcEscapeLoop, refRound_eq_loopBody]
    rcases loopBody c_x c_y t b s with o | s'
    · rfl
    · simpa using ih s'

/-- Claim C1 counterexample: at the input (2, 0) in Mandelbrot mode
with threshold 4 and no bailout, the code returns Bounded through
the comparison performed right after the first fast advance
(fast = (6, 0) against the not-yet-advanced slow = (2, 0)), while
the spec 4.1 reference round — a single fast/slow comparison per
round, placed after the slow advance — escapes at iteration 1.  The
code is therefore not extensionally equal to the one-comparison
reference. -/
theorem code_ne_single_comparison_round :
    calculate_escape_value 1 2 0 none (some 4) none = some none ∧
    specEscape 1 2 0 none (some 4) none = some (some 1) ∧
    calculate_escape_value 1 2 0 none (some 4) none ≠ specEscape 1 2 0 none (some 4) none := by
  have h1 : calculate_escape_value 1 2 0 none (some 4) none = some none := by
    norm_num [calculate_escape_value, calcEscapeLoop, loopBody, fastStep, slowStep, andThen,
      cycleMatch, bailoutHit, toEscapeValue]
  have h2 : specEscape 1 2 0 none (some 4) none = some (some 1) := by
    norm_num [specEscape, specLoop, specRound, specAdvance, specEscapeTest, specCompare,
      bailoutHit, toEscapeValue]
  refine ⟨h1, h2, ?_⟩
  rw [h1, h2]
  simp

/-- Claim C1 (amended): for every finite input, mode constant,
threshold and bailout, the code is extensionally equal to the
reference algorithm whose rounds consist of the two fast advances
(each with the pre-update escape test, each followed by a cycle
comparison against the not-yet-advanced slow point and then the
increment and bailout check of spec 4.1 step 5) and the slow
advance followed by a third cycle comparison — i.e. the code
performs three cycle comparisons per round, not one. -/
theorem escape_value_eq_three_comparison_reference (fuel : ℕ) (x y : ℚ)
    (c : Option (ℚ × ℚ)) (threshold : Option ℚ) (bailout : Option ℕ) :
    calculate_escape_value fuel x y c threshold bailout =
      refEscape fuel x y c threshold bailout := by
  simp only [calculate_escape_value, refEscape]
  rw [show (⟨0, (x, y), (x, y)⟩ : SpecState) = toSpecState ⟨0, x, y, x, y⟩ from rfl,
    refLoop_eq_calcEscapeLoop]

/- ---- EscapeEvaluator: threshold monotonicity (claim C5) ---- -/

theorem cycleMatch_mono {t a b c d : ℚ} (ht : 0 ≤ t)
    (h : cycleMatch 0 a b c d = true) : cycleMatch t a b c d = true := by
  simp [cycleMatch] at h
  obtain ⟨rfl, rfl⟩ : a = c ∧ b = d := h
  by_cases h0 : t = 0
  · subst h0; simp [cycleMatch]
  · simp only [cycleMatch, if_neg h0]
    simp [ht]

theorem fastStep_mono (c_x c_y t : ℚ) (ht : 0 < t) (b : Option ℕ) (s : EscState) :
    fastStep c_x c_y t b s = fastStep c_x c_y 0 b s ∨
    (fastStep c_x c_y t b s = .inl (.bounded s.iterations) ∧
      (fastStep c_x c_y 0 b s = .inl (.bounded (s.iterations + 1)) ∨
        ∃ s', fastStep c_x c_y 0 b s = .inr s' ∧ s'.iterations = s.iterations + 1)) := by
  by_cases hE : 4 < s.x_fast * s.x_fast + s.y_fast * s.y_fast
  · left; simp [fastStep, hE]
  · by_cases hM0 : cycleMatch 0 (s.x_fast * s.x_fast - s.y_fast * s.y_fast + c_x)
        (2 * s.x_fast * s.y_fast + c_y) s.x_slow s.y_slow = true
    · left
      have hMt := cycleMatch_mono (le_of_lt ht) hM0
      simp [fastStep, hE, hM0, hMt]
    · by_cases hMt : cycleMatch t (s.x_fast * s.x_fast - s.y_fast * s.y_fast + c_x)
          (2 * s.x_fast * s.y_fast + c_y) s.x_slow s.y_slow = true
      · right
        constructor
        · simp [fastStep, hE, hMt]
        · by_cases hB : bailoutHit b (s.iterations + 1) = true
          · left; simp [fastStep, hE, hM0, hB]
          · right
            refine ⟨⟨s.iterations + 1, s.x_slow, s.y_slow,
              s.x_fast * s.x_fast - s.y_fast * s.y_fast + c_x,
              2 * s.x_fast * s.y_fast + c_y⟩, ?_, rfl⟩
            simp [fastStep, hE, hM0, hB]
      · left; simp [fastStep, hE, hM0, hMt]

theorem slowStep_mono (c_x c_y t : ℚ) (ht : 0 < t) (s : EscState) :
    slowStep c_x c_y t s = slowStep c_x c_y 0 s ∨
    (slowStep c_x c_y t s = .inl (.bounded s.iterations) ∧
      ∃ s', slowStep c_x c_y 0 s = .inr s' ∧ s'.iterations = s.iterations) := by
  by_cases hM0 : cycleMatch 0 s.x_fast s.y_fast
      (s.x_slow * s.x_slow - s.y_slow * s.y_slow + c_x) (2 * s.x_slow * s.y_slow + c_y) = true
  · left
    have hMt := cycleMatch_mono (le_of_lt ht) hM0
    simp [slowStep, hM0, hMt]
  · by_cases hMt : cycleMatch t s.x_fast s.y_fast
        (s.x_slow * s.x_slow - s.y_slow * s.y_slow + c_x) (2 * s.x_slow * s.y_slow + c_y) = true
    · right
      refine ⟨by simp [slowStep, hMt],
        ⟨s.iterations, s.x_slow * s.x_slow - s.y_slow * s.y_slow + c_x,
          2 * s.x_slow * s.y_slow + c_y, s.x_fast, s.y_fast⟩, ?_, rfl⟩
      simp [slowStep, hM0]
    · left; simp [slowStep, hM0, hMt]

theorem loopBody_mono (c_x c_y t : ℚ) (ht : 0 < t) (b : Option ℕ) (s : EscState) :
    loopBody c_x c_y t b s = loopBody c_x c_y 0 b s ∨
    ∃ m, loopBody c_x c_y t b s = .inl (.bounded m) ∧ s.iterations ≤ m ∧
      (∀ o, loopBody c_x c_y 0 b s = .inl o → m ≤ o.counter) ∧
      (∀ s', loopBody c_x c_y 0 b s = .inr s' → m ≤ s'.iterations) := by
  rcases fastStep_mono c_x c_y t ht b s with h1 | ⟨h1t, -⟩
  · rcases hf1 : fastStep c_x c_y 0 b s with o | s1
    · left
      simp only [loopBody, h1, hf1, andThen_inl]
    · obtain ⟨e1, -⟩ := fastStep_inr hf1
      rcases fastStep_mono c_x c_y t ht b s1 with h2 | ⟨h2t, -⟩
      · rcases hf2 : fastStep c_x c_y 0 b s1 with o | s2
        · left
          simp only [loopBody, h1, hf1, andThen_inr, h2, hf2, andThen_inl]
        · obtain ⟨e2, -⟩ := fastStep_inr hf2
          rcases slowStep_mono c_x c_y t ht s2 with h3 | ⟨h3t, s3, h30, e3⟩
          · left
            simp only [loopBody, h1, hf1, andThen_inr, h2, hf2, h3]
          · right
            refine ⟨s2.iterations, ?_, by omega, ?_, ?_⟩
            · simp only [loopBody, h1, hf1, andThen_inr, h2, hf2, h3t]
            · intro o ho
              simp only [loopBody, hf1, andThen_inr, hf2, h30] at ho
              exact absurd ho (by simp)
            · intro s' hs'
              simp only [loopBody, hf1, andThen_inr, hf2, h30] at hs'
              simp only [Sum.inr.injEq] at hs'
              subst hs'
              omega
      · right
        refine ⟨s1.iterations, ?_, by omega, ?_, ?_⟩
        · simp only [loopBody, h1, hf1, andThen_inr, h2t, andThen_inl]
        · intro o ho
          simp only [loopBody, hf1, andThen_inr] at ho
          rcases hf2 : fastStep c_x c_y 0 b s1 with o' | s2 <;> rw [hf2] at ho <;>
            simp only [andThen_inl, andThen_inr] at ho
          · simp only [Sum.inl.injEq] at ho
            subst ho
            have := fastStep_inl_counter hf2
            omega
          · have e2 := (fastStep_inr hf2).1
            have ho2 := slowStep_inl ho
            subst ho2
            simp only [EscOutcome.counter]
            omega
        · intro s' hs'
          simp only [loopBody, hf1, andThen_inr] at hs'
          rcases hf2 : fastStep c_x c_y 0 b s1 with o' | s2 <;> rw [hf2] at hs' <;>
            simp only [andThen_inl, andThen_inr] at hs'
          · exact absurd hs' (by simp)
          · have e2 := (fastStep_inr hf2).1
            have e3 := slowStep_inr hs'
            omega
  · right
    refine ⟨s.iterations, ?_, le_refl _, ?_, ?_⟩
    · simp only [loopBody, h1t, andThen_inl]
    · intro o ho
      have := loopBody_inl_counter ho
      omega
    · intro s' hs'
      have := loopBody_inr_iterations hs'
      omega

theorem calcEscapeLoop_counter (c_x c_y t : ℚ) (b : Option ℕ) :
    ∀ (fuel : ℕ) (s : EscState) (o : EscOutcome),
      calcEscapeLoop c_x c_y t b fuel s = some o → s.iterations ≤ o.counter := by
  intro fuel
  induction fuel with
  | zero => intro s o h; simp [calcEscapeLoop] at h
  | succ f ih =>
    intro s o h
    simp only [calcEscapeLoop] at h
    rcases hlb : loopBody c_x c_y t b s with o' | s' <;> rw [hlb] at h
    · simp only [Option.some.injEq] at h
      subst h
      exact (loopBody_inl_counter hlb).1
    · have e := (loopBody_inr_iterations hlb).1
      have := ih s' o h
      omega

theorem calcEscapeLoop_mono (c_x c_y t : ℚ) (ht : 0 < t) (b : Option ℕ) :
    ∀ (fuel : ℕ) (s : EscState),
      (∀ n, calcEscapeLoop c_x c_y 0 b fuel s = some (.bounded n) →
        ∃ m, m ≤ n ∧ calcEscapeLoop c_x c_y t b fuel s = some (.bounded m)) ∧
      (∀ i, calcEscapeLoop c_x c_y 0 b fuel s = some (.escaped i) →
        calcEscapeLoop c_x c_y t b fuel s = some (.escaped i) ∨
        ∃ m, m ≤ i ∧ calcEscapeLoop c_x c_y t b fuel s = some (.bounded m)) := by
  intro fuel
  induction fuel with
  | zero =>
    intro s
    constructor <;> intro k hk <;> simp [calcEscapeLoop] at hk
  | succ f ih =>
    intro s
    rcases loopBody_mono c_x c_y t ht b s with heq | ⟨m, hmt, hms, hinl, hinr⟩
    · rcases hlb : loopBody c_x c_y 0 b s with o | s'
      · constructor
        · intro n hn
          simp only [calcEscapeLoop, hlb] at hn
          refine ⟨n, le_refl n, ?_⟩
          simp only [calcEscapeLoop, heq, hlb]
          exact hn
        · intro i hi
          simp only [calcEscapeLoop, hlb] at hi
          left
          simp only [calcEscapeLoop, heq, hlb]
          exact hi
      · constructor
        · intro n hn
          simp only [calcEscapeLoop, hlb] at hn
          obtain ⟨m, hmn, hm⟩ := (ih s').1 n hn
          exact ⟨m, hmn, by simp only [calcEscapeLoop, heq, hlb]; exact hm⟩
        · intro i hi
          simp only [calcEscapeLoop, hlb] at hi
          rcases (ih s').2 i hi with h | ⟨m, hmi, hm⟩
          · left
            simp only [calcEscapeLoop, heq, hlb]
            exact h
          · right
            exact ⟨m, hmi, by simp only [calcEscapeLoop, heq, hlb]; exact hm⟩
    · have hT : calcEscapeLoop c_x c_y t b (f + 1) s = some (.bounded m) := by
        simp only [calcEscapeLoop, hmt]
      constructor
      · intro n hn
        rcases hlb : loopBody c_x c_y 0 b s with o | s'
        · simp only [calcEscapeLoop, hlb, Option.some.injEq] at hn
          subst hn
          have := hinl _ hlb
          simp only [EscOutcome.counter] at this
          exact ⟨m, this, hT⟩
        · simp only [calcEscapeLoop, hlb] at hn
          have h1 := hinr s' hlb
          have h2 := calcEscapeLoop_counter c_x c_y 0 b f s' _ hn
          simp only [EscOutcome.counter] at h2
          exact ⟨m, by omega, hT⟩
      · intro i hi
        rcases hlb : loopBody c_x c_y 0 b s with o | s'
        · simp only [calcEscapeLoop, hlb, Option.some.injEq] at hi
          subst hi
          have := hinl _ hlb
          simp only [EscOutcome.counter] at this
          exact Or.inr ⟨m, this, hT⟩
        · simp only [calcEscapeLoop, hlb] at hi
          have h1 := hinr s' hlb
          have h2 := calcEscapeLoop_counter c_x c_y 0 b f s' _ hi
          simp only [EscOutcome.counter] at h2
          exact Or.inr ⟨m, by omega, hT⟩

/-- Claim C5 counterexample: at (2, 0) in Mandelbrot mode with no
bailout, the threshold-0 run escapes at iteration 1 (the true escape
point), while the same run with threshold 4 returns Bounded at the
comparison made while the counter is still 0 — raising the threshold
turned an Escaped result into Bounded detected at a smaller
iteration count than the true escape point. -/
theorem threshold_early_bounded :
    calcEscapeLoop 2 0 0 none 1 ⟨0, 2, 0, 2, 0⟩ = some (.escaped 1) ∧
    calcEscapeLoop 2 0 4 none 1 ⟨0, 2, 0, 2, 0⟩ = some (.bounded 0) ∧ (0 : ℕ) < 1 := by
  refine ⟨?_, ?_, by norm_num⟩ <;>
    norm_num [calcEscapeLoop, loopBody, fastStep, slowStep, andThen, cycleMatch, bailoutHit]

/-- Claim C5 (amended): for a fixed point, mode constant and bailout,
raising the cycle threshold from 0 to any t > 0 never makes Bounded
detection later: whenever the threshold-0 run returns Bounded with
internal counter n, the threshold-t run returns Bounded with counter
m ≤ n; and whenever the threshold-0 run returns Escaped(i), the
threshold-t run returns either the same Escaped(i) or Bounded with
counter m ≤ i — possibly strictly smaller than the true escape
point. -/
theorem threshold_monotone (fuel : ℕ) (x y c_x c_y t : ℚ) (b : Option ℕ) (ht : 0 < t) :
    (∀ n, calcEscapeLoop c_x c_y 0 b fuel ⟨0, x, y, x, y⟩ = some (.bounded n) →
      ∃ m, m ≤ n ∧ calcEscapeLoop c_x c_y t b fuel ⟨0, x, y, x, y⟩ = some (.bounded m)) ∧
    (∀ i, calcEscapeLoop c_x c_y 0 b fuel ⟨0, x, y, x, y⟩ = some (.escaped i) →
      calcEscapeLoop c_x c_y t b fuel ⟨0, x, y, x, y⟩ = some (.escaped i) ∨
      ∃ m, m ≤ i ∧ calcEscapeLoop c_x c_y t b fuel ⟨0, x, y, x, y⟩ = some (.bounded m)) :=
  calcEscapeLoop_mono c_x c_y t ht b fuel ⟨0, x, y, x, y⟩

/-- Witness for claim C5 (amended) at the input (2, 0) with
threshold 4: the threshold-0 run escapes at iteration 1, so the
threshold-4 run either escapes identically or is Bounded no later. -/
theorem threshold_monotone_witness :
    calcEscapeLoop 2 0 4 none 1 ⟨0, 2, 0, 2, 0⟩ = some (.escaped 1) ∨
    ∃ m, m ≤ 1 ∧ calcEscapeLoop 2 0 4 none 1 ⟨0, 2, 0, 2, 0⟩ = some (.bounded m) :=
  (threshold_monotone 1 2 0 2 0 4 none (by norm_num)).2 1
    (by norm_num [calcEscapeLoop, loopBody, fastStep, slowStep, andThen, cycleMatch, bailoutHit])

/- ---- SpiralEnumerator (claims C4 and C7) ---- -/

theorem ring_boundary (k : ℕ) (hk : 1 ≤ k) : (2 * k + 1) ^ 2 = (2 * k - 1) ^ 2 + 8 * k := by
  obtain ⟨k', rfl⟩ : ∃ k', k = k' + 1 := ⟨k - 1, by omega⟩
  have h : 2 * (k' + 1) - 1 = 2 * k' + 1 := by omega
  rw [h]
  ring

theorem spiralPos_decomp (k j : ℕ) (hk : 1 ≤ k) (hj : j < 8 * k) :
    spiralPos ((2 * k - 1) ^ 2 + j) = ringPoint k j := by
  have hlo : (2 * k - 1) ^ 2 ≤ (2 * k - 1) ^ 2 + j := Nat.le_add_right _ _
  have hhi : (2 * k - 1) ^ 2 + j < (2 * k + 1) ^ 2 := by
    rw [ring_boundary k hk]; omega
  have hsl : 2 * k - 1 ≤ Nat.sqrt ((2 * k - 1) ^ 2 + j) := Nat.le_sqrt'.mpr hlo
  have hsu : Nat.sqrt ((2 * k - 1) ^ 2 + j) < 2 * k + 1 := Nat.sqrt_lt'.mpr hhi
  have hone : 1 ≤ (2 * k - 1) ^ 2 := Nat.one_le_pow 2 (2 * k - 1) (by omega)
  have hn0 : (2 * k - 1) ^ 2 + j ≠ 0 := by omega
  have hkk : (Nat.sqrt ((2 * k - 1) ^ 2 + j) + 1) / 2 = k := by omega
  simp only [spiralPos]
  rw [if_neg hn0, hkk, Nat.add_sub_cancel_left]

theorem exists_ring_decomp (n : ℕ) (hn : 1 ≤ n) :
    ∃ k j, 1 ≤ k ∧ j < 8 * k ∧ n = (2 * k - 1) ^ 2 + j := by
  have h1 : Nat.sqrt n ^ 2 ≤ n := Nat.sqrt_le' n
  have h2 : n < (Nat.sqrt n + 1) ^ 2 := Nat.lt_succ_sqrt' n
  have hs1 : 1 ≤ Nat.sqrt n := Nat.le_sqrt.mpr (by omega)
  have hk : 1 ≤ (Nat.sqrt n + 1) / 2 := by omega
  have e1 : 2 * ((Nat.sqrt n + 1) / 2) - 1 ≤ Nat.sqrt n := by omega
  have e2 : Nat.sqrt n + 1 ≤ 2 * ((Nat.sqrt n + 1) / 2) + 1 := by omega
  have hl : (2 * ((Nat.sqrt n + 1) / 2) - 1) ^ 2 ≤ n :=
    le_trans (Nat.pow_le_pow_left e1 2) h1
  have hr : n < (2 * ((Nat.sqrt n + 1) / 2) + 1) ^ 2 :=
    lt_of_lt_of_le h2 (Nat.pow_le_pow_left e2 2)
  rw [ring_boundary _ hk] at hr
  exact ⟨(Nat.sqrt n + 1) / 2, n - (2 * ((Nat.sqrt n + 1) / 2) - 1) ^ 2,
    hk, by omega, by omega⟩

theorem ringPoint_norm (k j : ℕ) (hk : 1 ≤ k) (hj : j < 8 * k) :
    max (ringPoint k j).1.natAbs (ringPoint k j).2.natAbs = k := by
  rw [ringPoint]
  split_ifs <;> simp only <;> omega

theorem ringPoint_inj (k : ℕ) {j1 j2 : ℕ} (hk : 1 ≤ k) (h1 : j1 < 8 * k) (h2 : j2 < 8 * k)
    (he : ringPoint k j1 = ringPoint k j2) : j1 = j2 := by
  rw [ringPoint, ringPoint] at he
  split_ifs at he <;> simp only [Prod.mk.injEq, and_true, true_and] at he <;> omega

theorem ringPoint_surj (k : ℕ) (hk : 1 ≤ k) (p : ℤ × ℤ)
    (hp : max p.1.natAbs p.2.natAbs = k) : ∃ j, j < 8 * k ∧ ringPoint k j = p := by
  obtain ⟨row, col⟩ := p
  simp only at hp
  by_cases hck : col = (k : ℤ)
  · by_cases hrk : row = (k : ℤ)
    · refine ⟨8 * k - 1, by omega, ?_⟩
      rw [ringPoint]
      split_ifs <;> simp only [Prod.mk.injEq, and_true, true_and] <;> omega
    · refine ⟨((k : ℤ) - 1 - row).toNat, by omega, ?_⟩
      rw [ringPoint]
      split_ifs <;> simp only [Prod.mk.injEq, and_true, true_and] <;> omega
  · by_cases hrmk : row = -(k : ℤ)
    · refine ⟨(3 * (k : ℤ) - 1 - col).toNat, by omega, ?_⟩
      rw [ringPoint]
      split_ifs <;> simp only [Prod.mk.injEq, and_true, true_and] <;> omega
    · by_cases hcmk : col = -(k : ℤ)
      · refine ⟨(row + 5 * (k : ℤ) - 1).toNat, by omega, ?_⟩
        rw [ringPoint]
        split_ifs <;> simp only [Prod.mk.injEq, and_true, true_and] <;> omega
      · refine ⟨(col + 7 * (k : ℤ) - 1).toNat, by omega, ?_⟩
        rw [ringPoint]
        split_ifs <;> simp only [Prod.mk.injEq, and_true, true_and] <;> omega

theorem ringPoint_b1 (k j : ℕ) (h : j < 2 * k) :
    ringPoint k j = ((k : ℤ) - 1 - (j : ℤ), (k : ℤ)) := by
  rw [ringPoint, if_pos h]

theorem ringPoint_b2 (k j : ℕ) (h1 : ¬j < 2 * k) (h2 : j < 4 * k) :
    ringPoint k j = (-(k : ℤ), 3 * (k : ℤ) - 1 - (j : ℤ)) := by
  rw [ringPoint, if_neg h1, if_pos h2]

theorem ringPoint_b3 (k j : ℕ) (h1 : ¬j < 2 * k) (h2 : ¬j < 4 * k) (h3 : j < 6 * k) :
    ringPoint k j = ((j : ℤ) - 5 * (k : ℤ) + 1, -(k : ℤ)) := by
  rw [ringPoint, if_neg h1, if_neg h2, if_pos h3]

theorem ringPoint_b4 (k j : ℕ) (h1 : ¬j < 2 * k) (h2 : ¬j < 4 * k) (h3 : ¬j < 6 * k) :
    ringPoint k j = ((k : ℤ), (j : ℤ) - 7 * (k : ℤ) + 1) := by
  rw [ringPoint, if_neg h1, if_neg h2, if_neg h3]

theorem spiralStep_up {row column : ℤ} (h : |row| < column) :
    spiralStep row column = some (row - 1, column) := by
  have h' := abs_lt.mp h
  rw [spiralStep, if_neg (by omega), if_neg (by omega), if_neg (by omega),
    if_pos ⟨by omega, h⟩]

theorem spiralStep_down {row column : ℤ} (h : |row| < -column) :
    spiralStep row column = some (row + 1, column) := by
  have h' := abs_lt.mp h
  rw [spiralStep, if_neg (by omega), if_neg (by omega), if_neg (by omega),
    if_neg (by omega), if_pos ⟨by omega, h⟩]

theorem spiralStep_right {row column : ℤ} (h : |column| < row) :
    spiralStep row column = some (row, column + 1) := by
  have h' := abs_lt.mp h
  have habs : (0 : ℤ) ≤ |column| := abs_nonneg column
  have hrowabs : |row| = row := abs_of_nonneg (by omega)
  have h2 := neg_abs_le column
  rw [spiralStep, if_neg (by omega), if_neg (by omega), if_neg (by omega),
    if_neg (by omega), if_neg (by omega), if_pos ⟨by omega, h⟩]

theorem spiralStep_left {row column : ℤ} (h : |column| < -row) :
    spiralStep row column = some (row, column - 1) := by
  have h' := abs_lt.mp h
  have habs : (0 : ℤ) ≤ |column| := abs_nonneg column
  have hrowabs : |row| = -row := abs_of_nonpos (by omega)
  have h2 := neg_abs_le column
  rw [spiralStep, if_neg (by omega), if_neg (by omega), if_neg (by omega),
    if_neg (by omega), if_neg (by omega), if_neg (by omega), if_pos ⟨by omega, h⟩]

theorem spiralStep_diag_pos {a : ℤ} (ha : 0 < a) :
    spiralStep a a = some (a, a + 1) := by
  rw [spiralStep, if_neg (by omega), if_pos rfl, if_pos ha]

theorem spiralStep_anti_pos {a : ℤ} (ha : 0 < a) :
    spiralStep (-a) a = some (-a, a - 1) := by
  rw [spiralStep, if_neg (by omega), if_neg (by omega), if_pos rfl, if_pos ha]

theorem spiralStep_diag_nonpos {a : ℤ} (ha : 0 < a) :
    spiralStep (-a) (-a) = some (-a + 1, -a) := by
  rw [spiralStep, if_neg (by omega), if_pos rfl, if_neg (by omega)]

theorem spiralStep_anti_nonpos {a : ℤ} (ha : 0 < a) :
    spiralStep a (-a) = some (a, -a + 1) := by
  rw [spiralStep, if_neg (by omega), if_neg (by omega), if_pos (by omega), if_neg (by omega)]

theorem ringPoint_step (k j : ℕ) (hk : 1 ≤ k) (hj : j + 1 < 8 * k) :
    spiralStep (ringPoint k j).1 (ringPoint k j).2 = some (ringPoint k (j + 1)) := by
  by_cases c1 : j < 2 * k - 1
  · rw [ringPoint_b1 k j (by omega), ringPoint_b1 k (j + 1) (by omega),
      spiralStep_up (by rw [abs_lt]; constructor <;> omega)]
    simp only [Option.some.injEq, Prod.mk.injEq, and_true, true_and]
    omega
  · by_cases c2 : j = 2 * k - 1
    · have e1 : ringPoint k j = (-(k : ℤ), (k : ℤ)) := by
        rw [ringPoint_b1 k j (by omega)]
        simp only [Prod.mk.injEq, and_true, true_and]
        omega
      have e2 : ringPoint k (j + 1) = (-(k : ℤ), (k : ℤ) - 1) := by
        rw [ringPoint_b2 k (j + 1) (by omega) (by omega)]
        simp only [Prod.mk.injEq, and_true, true_and]
        omega
      rw [e1, e2, spiralStep_anti_pos (by omega : (0 : ℤ) < (k : ℤ))]
    · by_cases c3 : j < 4 * k - 1
      · rw [ringPoint_b2 k j (by omega) (by omega),
          ringPoint_b2 k (j + 1) (by omega) (by omega),
          spiralStep_left (by rw [abs_lt]; constructor <;> omega)]
        simp only [Option.some.injEq, Prod.mk.injEq, and_true, true_and]
        omega
      · by_cases c4 : j = 4 * k - 1
        · have e1 : ringPoint k j = (-(k : ℤ), -(k : ℤ)) := by
            rw [ringPoint_b2 k j (by omega) (by omega)]
            simp only [Prod.mk.injEq, and_true, true_and]
            omega
          have e2 : ringPoint k (j + 1) = (-(k : ℤ) + 1, -(k : ℤ)) := by
            rw [ringPoint_b3 k (j + 1) (by omega) (by omega) (by omega)]
            simp only [Prod.mk.injEq, and_true, true_and]
            omega
          rw [e1, e2, spiralStep_diag_nonpos (by omega : (0 : ℤ) < (k : ℤ))]
        · by_cases c5 : j < 6 * k - 1
          · rw [ringPoint_b3 k j (by omega) (by omega) (by omega),
              ringPoint_b3 k (j + 1) (by omega) (by omega) (by omega),
              spiralStep_down (by rw [abs_lt]; constructor <;> omega)]
            simp only [Option.some.injEq, Prod.mk.injEq, and_true, true_and]
            omega
          · by_cases c6 : j = 6 * k - 1
            · have e1 : ringPoint k j = ((k : ℤ), -(k : ℤ)) := by
                rw [ringPoint_b3 k j (by omega) (by omega) (by omega)]
                simp only [Prod.mk.injEq, and_true, true_and]
                omega
              have e2 : ringPoint k (j + 1) = ((k : ℤ), -(k : ℤ) + 1) := by
                rw [ringPoint_b4 k (j + 1) (by omega) (by omega) (by omega)]
                simp only [Prod.mk.injEq, and_true, true_and]
                omega
              rw [e1, e2, spiralStep_anti_nonpos (by omega : (0 : ℤ) < (k : ℤ))]
            · rw [ringPoint_b4 k j (by omega) (by omega) (by omega),
                ringPoint_b4 k (j + 1) (by omega) (by omega) (by omega),
                spiralStep_right (by rw [abs_lt]; constructor <;> omega)]
              simp only [Option.some.injEq, Prod.mk.injEq, and_true, true_and]
              omega

theorem ringPoint_step_last (k : ℕ) (hk : 1 ≤ k) :
    spiralStep (ringPoint k (8 * k - 1)).1 (ringPoint k (8 * k - 1)).2 =
      some (ringPoint (k + 1) 0) := by
  have h1 : ringPoint k (8 * k - 1) = ((k : ℤ), (k : ℤ)) := by
    rw [ringPoint_b4 k (8 * k - 1) (by omega) (by omega) (by omega)]
    simp only [Prod.mk.injEq, and_true, true_and]
    omega
  have h2 : ringPoint (k + 1) 0 = ((k : ℤ), (k : ℤ) + 1) := by
    rw [ringPoint_b1 (k + 1) 0 (by omega)]
    simp only [Prod.mk.injEq, and_true, true_and]
    omega
  rw [h1, h2, spiralStep_diag_pos (by omega : (0 : ℤ) < (k : ℤ))]

theorem spiralPos_step (n : ℕ) :
    spiralStep (spiralPos n).1 (spiralPos n).2 = some (spiralPos (n + 1)) := by
  rcases Nat.eq_zero_or_pos n with rfl | hn
  · have h2 : spiralPos 1 = ringPoint 1 0 := by
      have := spiralPos_decomp 1 0 (le_refl 1) (by omega)
      norm_num at this
      exact this
    rw [h2]
    simp only [spiralPos]
    norm_num [ringPoint, spiralStep]
  · obtain ⟨k, j, hk, hj, rfl⟩ := exists_ring_decomp n hn
    by_cases hlast : j + 1 < 8 * k
    · have e : (2 * k - 1) ^ 2 + j + 1 = (2 * k - 1) ^ 2 + (j + 1) := by omega
      rw [e, spiralPos_decomp k j hk hj, spiralPos_decomp k (j + 1) hk hlast]
      exact ringPoint_step k j hk hlast
    · have hj8 : j = 8 * k - 1 := by omega
      subst hj8
      have hb := ring_boundary k hk
      have e : (2 * k - 1) ^ 2 + (8 * k - 1) + 1 = (2 * (k + 1) - 1) ^ 2 + 0 := by
        have h2 : 2 * (k + 1) - 1 = 2 * k + 1 := by omega
        rw [h2]
        omega
      rw [e, spiralPos_decomp k _ hk (by omega), spiralPos_decomp (k + 1) 0 (by omega) (by omega)]
      exact ringPoint_step_last k hk

theorem spiralIter_eq (n : ℕ) : spiralIter n = some (spiralPos n) := by
  induction n with
  | zero => simp [spiralIter, spiralPos]
  | succ m ih =>
    rw [spiralIter, ih]
    exact spiralPos_step m

/-- Claim C7: every offset state reachable from (0, 0) by repeated
application of the spiral step function is sent by the step function
to another offset — the final panic arm is never taken, so the
enumerator never aborts. -/
theorem spiral_never_panics (n : ℕ) :
    ∃ p q, spiralIter n = some p ∧ spiralStep p.1 p.2 = some q :=
  ⟨spiralPos n, spiralPos (n + 1), spiralIter_eq n, spiralPos_step n⟩

theorem spiralPos_in_ball (r n : ℕ) (hn : n < (2 * r + 1) ^ 2) :
    max (spiralPos n).1.natAbs (spiralPos n).2.natAbs ≤ r := by
  rcases Nat.eq_zero_or_pos n with rfl | hpos
  · simp [spiralPos]
  · obtain ⟨k, j, hk, hj, rfl⟩ := exists_ring_decomp n hpos
    rw [spiralPos_decomp k j hk hj, ringPoint_norm k j hk hj]
    by_contra hkr
    have h1 : 2 * r + 1 ≤ 2 * k - 1 := by omega
    have h2 : (2 * r + 1) ^ 2 ≤ (2 * k - 1) ^ 2 := Nat.pow_le_pow_left h1 2
    omega

theorem ball_in_spiralPos (r : ℕ) (p : ℤ × ℤ)
    (hp : max p.1.natAbs p.2.natAbs ≤ r) :
    ∃ n, n < (2 * r + 1) ^ 2 ∧ spiralPos n = p := by
  rcases Nat.eq_zero_or_pos (max p.1.natAbs p.2.natAbs) with hk0 | hkpos
  · have hone : 1 ≤ (2 * r + 1) ^ 2 := Nat.one_le_pow 2 (2 * r + 1) (by omega)
    refine ⟨0, by omega, ?_⟩
    obtain ⟨a, b⟩ := p
    simp only at hk0
    have ha : a = 0 := by omega
    have hb : b = 0 := by omega
    subst ha
    subst hb
    simp [spiralPos]
  · obtain ⟨j, hj, hpj⟩ := ringPoint_surj _ hkpos p rfl
    have hkr : max p.1.natAbs p.2.natAbs ≤ r := hp
    refine ⟨(2 * (max p.1.natAbs p.2.natAbs) - 1) ^ 2 + j, ?_, ?_⟩
    · have h2 : (2 * (max p.1.natAbs p.2.natAbs) + 1) ^ 2 ≤ (2 * r + 1) ^ 2 :=
        Nat.pow_le_pow_left (by omega) 2
      have h3 := ring_boundary _ hkpos
      omega
    · rw [spiralPos_decomp _ j hkpos hj, hpj]

theorem spiralPos_inj {m n : ℕ} (he : spiralPos m = spiralPos n) : m = n := by
  rcases Nat.eq_zero_or_pos m with rfl | hm <;> rcases Nat.eq_zero_or_pos n with rfl | hn
  · rfl
  · obtain ⟨k, j, hk, hj, rfl⟩ := exists_ring_decomp n hn
    rw [spiralPos_decomp k j hk hj] at he
    have h1 : max (ringPoint k j).1.natAbs (ringPoint k j).2.natAbs = k :=
      ringPoint_norm k j hk hj
    rw [← he] at h1
    simp [spiralPos] at h1
    omega
  · obtain ⟨k, j, hk, hj, rfl⟩ := exists_ring_decomp m hm
    rw [spiralPos_decomp k j hk hj] at he
    have h1 : max (ringPoint k j).1.natAbs (ringPoint k j).2.natAbs = k :=
      ringPoint_norm k j hk hj
    rw [he] at h1
    simp [spiralPos] at h1
    omega
  · obtain ⟨k1, j1, hk1, hj1, rfl⟩ := exists_ring_decomp m hm
    obtain ⟨k2, j2, hk2, hj2, rfl⟩ := exists_ring_decomp n hn
    rw [spiralPos_decomp k1 j1 hk1 hj1, spiralPos_decomp k2 j2 hk2 hj2] at he
    have e1 := ringPoint_norm k1 j1 hk1 hj1
    have e2 := ringPoint_norm k2 j2 hk2 hj2
    rw [he] at e1
    have hkk : k1 = k2 := by omega
    subst hkk
    have := ringPoint_inj k1 hk1 hj1 hj2 he
    omega

/-- Claim C4: for every radius r ≥ 0, the first (2r+1)^2 offsets
produced by the spiral enumerator seeded at (0, 0) are exactly the
lattice offsets with sup-norm at most r — every such offset is
produced by exactly one index below (2r+1)^2, with no duplicates and
no omissions. -/
theorem spiral_first_rings_exact (r : ℕ) (p : ℤ × ℤ) :
    ((∃ n, n < (2 * r + 1) ^ 2 ∧ spiralIter n = some p) ↔ max |p.1| |p.2| ≤ (r : ℤ)) ∧
    (∀ m n, m < (2 * r + 1) ^ 2 → n < (2 * r + 1) ^ 2 →
      spiralIter m = some p → spiralIter n = some p → m = n) := by
  constructor
  · constructor
    · rintro ⟨n, hn, hp⟩
      rw [spiralIter_eq n] at hp
      simp only [Option.some.injEq] at hp
      subst hp
      have := spiralPos_in_ball r n hn
      rw [Int.abs_eq_natAbs, Int.abs_eq_natAbs]
      omega
    · intro hp
      rw [Int.abs_eq_natAbs, Int.abs_eq_natAbs] at hp
      have hp' : max p.1.natAbs p.2.natAbs ≤ r := by omega
      obtain ⟨n, hn, hpn⟩ := ball_in_spiralPos r p hp'
      exact ⟨n, hn, by rw [spiralIter_eq n, hpn]⟩
  · intro m n _ _ hm hn
    rw [spiralIter_eq m] at hm
    rw [spiralIter_eq n] at hn
    simp only [Option.some.injEq] at hm hn
    exact spiralPos_inj (hm.trans hn.symm)

/-- Witness for claim C4 at radius 1: the offset (1, 1) lies in the
first 9 outputs of the enumerator. -/
theorem spiral_first_rings_exact_witness :
    ∃ n, n < (2 * 1 + 1) ^ 2 ∧ spiralIter n = some ((1 : ℤ), (1 : ℤ)) :=
  (spiral_first_rings_exact 1 (1, 1)).1.mpr (by decide)

end JLR
